import Mathlib

/-!
Verification of the layout-allocation core of the `graphic_library` repository.

The definitions below are a shallow embedding of the C++ sources:

* `LinearLayout::addItem` / `LinearLayout::removeItem` (LinearLayout.hxx): the
  logical-position table `m_idsToPosition` is a vector indexed by logical
  position whose values are allocation ids (this is the reading used by
  `removeItem` and by the worked example in its comments).
* `GridLayout` setters and `GridLayout::addItem` (GridLayout.hxx), with the
  source's unsigned 32-bit arithmetic made explicit.
* `ComboBox::getIndexFromInsertPolicy` (ComboBox.cc), alphabetical branch.
* The base `Layout` registry and the fair allocator `allocateFairly` are not
  part of the analysed sources (only their callers are); they are modelled
  from the specification where needed, and marked as such.
-/

/-! ## Base item registry (modelled from the spec) -/

/-- Modelled from the spec: base `Layout::addItem` (ItemRegistry, spec 4.2); the base
class is missing from the analysed sources. It appends a new entry and assigns it the
next id, which is the current count; ids therefore coincide with list positions. -/
def registryAdd (items : List Nat) (item : Nat) : List Nat × Int :=
  (items ++ [item], (items.length : Int))

/-- Modelled from the spec: base `Layout::removeItem` (ItemRegistry, spec 4.2); the base
class is missing from the analysed sources. It locates the entry by identity; if absent
it returns a negative sentinel id and performs no mutation; if present it removes the
entry (which compacts every greater id by one, ids being list positions) and returns the
pre-removal id. -/
def registryRemove (items : List Nat) (item : Nat) : List Nat × Int :=
  match items.findIdx? (fun it => it == item) with
  | none => (items, -1)
  | some i => (items.eraseIdx i, (i : Int))

/-! ## LinearLayout (LinearLayout.hxx) -/

/-- Index of the last occurrence of `x` in `l`, if any. Used to express the result of
the single forward pass in `LinearLayout::removeItem`, whose `logicalIDOfRm` is
overwritten on every match and therefore remembers the last matching index. -/
def lastIdxOf : List Int → Int → Option Nat
  | [], _ => none
  | v :: t, x =>
    match lastIdxOf t x with
    | some i => some (i + 1)
    | none => if v = x then some 0 else none

/-- Body of `LinearLayout::addItem(item, index)` once the base `Layout::addItem` has
returned `baseId`, acting on the logical table `table` (indexed by logical position,
holding allocation ids). `newCount` is `getItemsCount()` at that point, which already
includes the new item. The source normalizes the index, increments every stored value
that is at least `normalized`, then inserts the value `baseId` at position
`normalized`. -/
def linearAddItemWithBase (table : List Int) (newCount : Nat) (baseId : Int)
    (index : Int) : List Int × Int :=
  if baseId < 0 then (table, baseId)
  else
    let normalized : Int := min (max 0 index) ((newCount : Int) - 1)
    let shifted := table.map (fun v => if normalized ≤ v then v + 1 else v)
    (shifted.insertIdx normalized.toNat baseId, baseId)

/-- Body of `LinearLayout::removeItem(item)` once the base `Layout::removeItem` has
returned `rmID`. The source makes one forward pass which first decrements every value
greater than `rmID` and then compares the (possibly just decremented) value against
`rmID`, remembering the last matching index; if one was found, that entry is erased. -/
def linearRemoveItemWithBase (table : List Int) (rmID : Int) : List Int × Int :=
  if rmID < 0 then (table, rmID)
  else
    let updated := table.map (fun v => if rmID < v then v - 1 else v)
    match lastIdxOf updated rmID with
    | none => (updated, rmID)
    | some i => (updated.eraseIdx i, rmID)

/-- State of a `LinearLayout`: the base registry's items (position = allocation id) and
the logical table `m_idsToPosition` (position = logical index, value = allocation id). -/
structure LinearLayoutState where
  items : List Nat
  idsToPosition : List Int
deriving DecidableEq

/-- `LinearLayout::addItem(item, index)`: base registration followed by the logical
table update. -/
def LinearLayoutState.addItem (st : LinearLayoutState) (item : Nat) (index : Int) :
    LinearLayoutState × Int :=
  let r := registryAdd st.items item
  let t := linearAddItemWithBase st.idsToPosition r.1.length r.2 index
  (⟨r.1, t.1⟩, t.2)

/-- `LinearLayout::removeItem(item)`: base removal followed by the logical table
update; a failed base removal mutates nothing. -/
def LinearLayoutState.removeItem (st : LinearLayoutState) (item : Nat) :
    LinearLayoutState × Int :=
  let r := registryRemove st.items item
  if r.2 < 0 then (st, r.2)
  else
    let t := linearRemoveItemWithBase st.idsToPosition r.2
    (⟨r.1, t.1⟩, t.2)

/-- The empty linear layout. -/
def emptyLinear : LinearLayoutState := ⟨[], []⟩

/-- State reached from the empty layout by `addItem(item0, 0)`, `addItem(item1, 2)`,
`addItem(item2, 1)`, with distinct item handles `10`, `20`, `30`. -/
def c1FinalState : LinearLayoutState :=
  (((emptyLinear.addItem 10 0).1.addItem 20 2).1.addItem 30 1).1

/-- C1: inserting at logical indices `0, 2, 1` into an empty `LinearLayout` is claimed
to yield the logical table `[0, 2, 1]`; the code instead yields `[0, 2, 2]`, because
`addItem`'s shifting loop increments stored allocation ids (values) as if they were
logical positions before the vector insertion. -/
theorem c1_insert_0_2_1_yields_0_2_2 :
    c1FinalState.idsToPosition = [0, 2, 2] ∧ ([0, 2, 2] : List Int) ≠ [0, 2, 1] := by
  decide

/-- C2: after the same three insertions the layout holds 3 items, yet the logical
table's values `[0, 2, 2]` are not a permutation of `[0, 3)`: allocation id `1` is
lost and id `2` is duplicated, so the claimed bijection invariant fails. -/
theorem c2_table_not_bijection_after_sequence :
    c1FinalState.items.length = 3 ∧
    c1FinalState.idsToPosition.length = 3 ∧
    ¬ c1FinalState.idsToPosition.Perm [0, 1, 2] := by
  decide

/-- A 5-item linear layout whose logical table is the worked example written in the
comments of `LinearLayout::removeItem`. -/
def c3State : LinearLayoutState := ⟨[10, 20, 30, 40, 50], [1, 0, 2, 4, 3]⟩

/-- C3: on the source's own worked example (table `[1, 0, 2, 4, 3]`, removing the item
with allocation id `2`) the comments state the result should be `[1, 0, 3, 2]`; the
code instead erases the entry whose value was just decremented to `rmID` (index 4,
formerly `3`) rather than the entry whose pre-decrement value equals `rmID` (index 2),
and returns `[1, 0, 2, 3]`. -/
theorem c3_remove_erases_wrong_entry :
    (c3State.removeItem 30).1.idsToPosition = [1, 0, 2, 3] ∧
    (c3State.removeItem 30).2 = 2 ∧
    ([1, 0, 2, 3] : List Int) ≠ [1, 0, 3, 2] := by
  decide

/-- C9: when the base registry rejects the operation (negative returned id), both
`LinearLayout::addItem` and `LinearLayout::removeItem` return that id unchanged and
leave the logical table untouched. -/
theorem c9_negative_base_id_is_atomic (table : List Int) (newCount : Nat)
    (baseId : Int) (index : Int) (h : baseId < 0) :
    linearAddItemWithBase table newCount baseId index = (table, baseId) ∧
    linearRemoveItemWithBase table baseId = (table, baseId) := by
  refine ⟨?_, ?_⟩ <;> simp [linearAddItemWithBase, linearRemoveItemWithBase, if_pos h]

/-- Witness for C9 at the concrete table `[0, 1]` and rejected id `-1`. -/
theorem c9_negative_base_id_is_atomic_witness :
    linearAddItemWithBase [0, 1] 3 (-1) 0 = ([0, 1], -1) ∧
    linearRemoveItemWithBase [0, 1] (-1) = ([0, 1], -1) :=
  c9_negative_base_id_is_atomic [0, 1] 3 (-1) 0 (by decide)

/-! ## GridLayout (GridLayout.hxx) -/

/-- Per-line (row or column) configuration, `GridLayout::LineInfo`. -/
structure LineInfo where
  min : Int
  stretch : Int
deriving DecidableEq

/-- Stored cell placement of an item, the entry type of `m_locations`. -/
structure CellPlacement where
  x : Nat
  y : Nat
  w : Nat
  h : Nat
deriving DecidableEq

/-- State of a `GridLayout`: dimensions, per-line infos and the locations table. -/
structure GridLayoutState where
  columns : Nat
  rows : Nat
  columnsInfo : List LineInfo
  rowsInfo : List LineInfo
  locations : List (Int × CellPlacement)
deriving DecidableEq

/-- The failure raised by the configuration setters via `error(...)`. -/
inductive GridError
  | OutOfRange
deriving DecidableEq

/-- Point update of a list; out-of-bounds indices leave the list unchanged. The C++
setters perform `m_columnsInfo[column].field = value`, which for `column` equal to the
vector's size is an out-of-bounds access; the model makes that write a no-op, which is
enough to show that no `OutOfRange` failure is raised there. -/
def listModify {α : Type} (f : α → α) : Nat → List α → List α
  | _, [] => []
  | 0, a :: t => f a :: t
  | i + 1, a :: t => a :: listModify f i t

/-- `GridLayout::setColumnHorizontalStretch`: rejects only `column > m_columns`. -/
def setColumnHorizontalStretch (st : GridLayoutState) (column : Nat) (stretch : Int) :
    Except GridError GridLayoutState :=
  if column > st.columns then .error .OutOfRange
  else .ok ⟨st.columns, st.rows,
    listModify (fun li => ⟨li.min, stretch⟩) column st.columnsInfo,
    st.rowsInfo, st.locations⟩

/-- `GridLayout::setColumnMinimumWidth`: rejects only `column > m_columns`. -/
def setColumnMinimumWidth (st : GridLayoutState) (column : Nat) (width : Int) :
    Except GridError GridLayoutState :=
  if column > st.columns then .error .OutOfRange
  else .ok ⟨st.columns, st.rows,
    listModify (fun li => ⟨width, li.stretch⟩) column st.columnsInfo,
    st.rowsInfo, st.locations⟩

/-- `GridLayout::setRowVerticalStretch`: rejects only `row > m_rows`. -/
def setRowVerticalStretch (st : GridLayoutState) (row : Nat) (stretch : Int) :
    Except GridError GridLayoutState :=
  if row > st.rows then .error .OutOfRange
  else .ok ⟨st.columns, st.rows, st.columnsInfo,
    listModify (fun li => ⟨li.min, stretch⟩) row st.rowsInfo,
    st.locations⟩

/-- `GridLayout::setRowMinimumHeight`: rejects only `row > m_rows`. -/
def setRowMinimumHeight (st : GridLayoutState) (row : Nat) (height : Int) :
    Except GridError GridLayoutState :=
  if row > st.rows then .error .OutOfRange
  else .ok ⟨st.columns, st.rows, st.columnsInfo,
    listModify (fun li => ⟨height, li.stretch⟩) row st.rowsInfo,
    st.locations⟩

/-- The modulus of the source's `unsigned` (32-bit) arithmetic. -/
def u32Mod : Nat := 4294967296

/-- Unsigned 32-bit subtraction `a - b`, for `a, b < u32Mod`. -/
def sub32 (a b : Nat) : Nat := (a + u32Mod - b) % u32Mod

/-- The placement computed by `GridLayout::addItem`, mirroring the initializer
`{min(m_columns-1, x), min(m_rows-1, y), min(m_columns - min(m_columns-1, x), w),
min(m_rows - min(m_rows-1, y), h)}` under unsigned arithmetic. -/
def gridPlacement (columns rows x y w h : Nat) : CellPlacement :=
  ⟨min (sub32 columns 1) x,
   min (sub32 rows 1) y,
   min (sub32 columns (min (sub32 columns 1) x)) w,
   min (sub32 rows (min (sub32 rows 1) y)) h⟩

/-- `m_locations[key] = value` on an association list: overwrite an existing binding
for the key, otherwise append a new one. -/
def mapInsert (l : List (Int × CellPlacement)) (k : Int) (v : CellPlacement) :
    List (Int × CellPlacement) :=
  if l.any (fun p => p.1 == k) then l.map (fun p => if p.1 = k then (k, v) else p)
  else l ++ [(k, v)]

/-- Lookup in the locations table. -/
def mapLookup (l : List (Int × CellPlacement)) (k : Int) : Option CellPlacement :=
  match l.find? (fun p => p.1 == k) with
  | none => none
  | some p => some p.2

/-- `GridLayout::addItem(container, x, y, w, h)` once the base `Layout::addItem` has
returned `baseId`: the source stores the placement into `m_locations[baseId]`
unconditionally, with no check on the sign of `baseId`, and returns `baseId`. -/
def gridAddItem (st : GridLayoutState) (baseId : Int) (x y w h : Nat) :
    GridLayoutState × Int :=
  (⟨st.columns, st.rows, st.columnsInfo, st.rowsInfo,
    mapInsert st.locations baseId (gridPlacement st.columns st.rows x y w h)⟩,
   baseId)

/-- A configured 2-column, 2-row grid with default line infos. -/
def c5Grid : GridLayoutState := ⟨2, 2, [⟨0, 0⟩, ⟨0, 0⟩], [⟨0, 0⟩, ⟨0, 0⟩], []⟩

/-- C5: on a 2x2 grid, every configuration setter called with line index 2 (one past
the last valid line, hence out of range) is claimed to fail with `OutOfRange`; the
source's guard is `index > count`, so index 2 passes the check and no failure is
raised; the subsequent write `m_columnsInfo[2]` is past the end of the 2-element
vector (out-of-bounds in the C++, a no-op in this model). -/
theorem c5_boundary_index_not_rejected :
    setColumnHorizontalStretch c5Grid 2 5 = .ok c5Grid ∧
    setColumnMinimumWidth c5Grid 2 5 = .ok c5Grid ∧
    setRowVerticalStretch c5Grid 2 5 = .ok c5Grid ∧
    setRowMinimumHeight c5Grid 2 5 = .ok c5Grid :=
  ⟨rfl, rfl, rfl, rfl⟩

/-- Inserting a binding and looking the key up yields the inserted placement. -/
theorem mapLookup_mapInsert (l : List (Int × CellPlacement)) (k : Int)
    (v : CellPlacement) : mapLookup (mapInsert l k v) k = some v := by
  induction l with
  | nil => simp [mapInsert, mapLookup]
  | cons p t ih =>
    by_cases hpk : p.1 = k
    · simp [mapInsert, mapLookup, hpk, List.find?]
    · by_cases ht : t.any (fun q => q.1 == k)
      · simpa [mapInsert, mapLookup, hpk, ht, List.find?] using ih
      · simpa [mapInsert, mapLookup, hpk, ht, List.find?] using ih

/-- C10: for every grid state and every id returned by the base registration,
negative ids included, `GridLayout::addItem` returns that id and stores the computed
placement in the locations table under that very id: the write is unconditional. -/
theorem c10_unconditional_placement_write (st : GridLayoutState) (baseId : Int)
    (x y w h : Nat) :
    (gridAddItem st baseId x y w h).2 = baseId ∧
    mapLookup (gridAddItem st baseId x y w h).1.locations baseId
      = some (gridPlacement st.columns st.rows x y w h) :=
  ⟨rfl, mapLookup_mapInsert st.locations baseId _⟩

/-- C6: on a configured grid (at least one column and one row, dimensions below the
unsigned modulus), the stored placement clamps the origin to the grid and the span to
the boundary: effective x is `min x (columns - 1)`, effective width is
`min w (columns - effective x)`, so `effective x + effective width ≤ columns`, and
symmetrically for rows. -/
theorem c6_configured_clamping (columns rows x y w h : Nat)
    (hc : 1 ≤ columns) (hcU : columns < u32Mod) (hr : 1 ≤ rows) (hrU : rows < u32Mod) :
    (gridPlacement columns rows x y w h).x = min x (columns - 1) ∧
    (gridPlacement columns rows x y w h).y = min y (rows - 1) ∧
    (gridPlacement columns rows x y w h).w
      = min w (columns - (gridPlacement columns rows x y w h).x) ∧
    (gridPlacement columns rows x y w h).h
      = min h (rows - (gridPlacement columns rows x y w h).y) ∧
    (gridPlacement columns rows x y w h).x + (gridPlacement columns rows x y w h).w
      ≤ columns ∧
    (gridPlacement columns rows x y w h).y + (gridPlacement columns rows x y w h).h
      ≤ rows := by
  simp only [gridPlacement, sub32, u32Mod] at *
  refine ⟨?_, ?_, ?_, ?_, ?_, ?_⟩ <;> omega

/-- Witness for C6: the spec's own example, a 4x3 grid with `addItem(item, 3, 0, 4, 1)`,
whose stored placement has column 3 and width 1. -/
theorem c6_configured_clamping_witness :
    (gridPlacement 4 3 3 0 4 1).x = 3 ∧ (gridPlacement 4 3 3 0 4 1).w = 1 := by
  have h := c6_configured_clamping 4 3 3 0 4 1 (by decide) (by decide) (by decide)
    (by decide)
  refine ⟨?_, ?_⟩
  · rw [h.1]
    decide
  · rw [h.2.2.1, h.1]
    decide

/-- C7 counterexample: on an unconfigured grid (zero columns and rows) the call
`addItem(item, 0, 0, 1, 1)` stores the placement `(0, 0, 0, 0)` (width and height 0,
because `m_columns - x` is 0 for `x = 0`), not the claimed cell `(0, 0)` with span
1x1. -/
theorem c7_unconfigured_not_unit_cell :
    gridPlacement 0 0 0 0 1 1 = ⟨0, 0, 0, 0⟩ ∧
    gridPlacement 0 0 0 0 1 1 ≠ ⟨0, 0, 1, 1⟩ := by
  decide

/-- C7 amended: on an unconfigured grid the clamp bound `m_columns - 1` wraps to
`2^32 - 1` under unsigned arithmetic, so the stored origin is `x` itself (not 0), and
the stored width is `min ((2^32 - x) mod 2^32) w` (0 when `x = 0`), and symmetrically
for rows; the placement is not forced to cell `(0, 0)` with span 1x1. -/
theorem c7_unconfigured_placement (x y w h : Nat) (hx : x < u32Mod) (hy : y < u32Mod) :
    (gridPlacement 0 0 x y w h).x = x ∧
    (gridPlacement 0 0 x y w h).y = y ∧
    (gridPlacement 0 0 x y w h).w = min (if x = 0 then 0 else u32Mod - x) w ∧
    (gridPlacement 0 0 x y w h).h = min (if y = 0 then 0 else u32Mod - y) h := by
  simp only [gridPlacement, sub32, u32Mod] at *
  refine ⟨?_, ?_, ?_, ?_⟩
  · omega
  · omega
  · by_cases hx0 : x = 0 <;> (simp only [hx0, if_pos, if_neg, ite_true, ite_false]; omega)
  · by_cases hy0 : y = 0 <;> (simp only [hy0, if_pos, if_neg, ite_true, ite_false]; omega)

/-- Witness for C7 amended: on the unconfigured grid, `addItem(item, 5, 0, 7, 2)`
stores origin `(5, 0)` and span `(7, 0)`. -/
theorem c7_unconfigured_placement_witness :
    (gridPlacement 0 0 5 0 7 2).x = 5 ∧
    (gridPlacement 0 0 5 0 7 2).y = 0 ∧
    (gridPlacement 0 0 5 0 7 2).w = min (if (5 : Nat) = 0 then 0 else u32Mod - 5) 7 ∧
    (gridPlacement 0 0 5 0 7 2).h = min (if (0 : Nat) = 0 then 0 else u32Mod - 0) 2 :=
  c7_unconfigured_placement 5 0 7 2 (by decide) (by decide)

/-! ## ComboBox alphabetical insertion (ComboBox.cc) -/

/-- The scan loop of `ComboBox::getIndexFromInsertPolicy`: iterate over the items in
order, and every time an item's text compares less than the input overwrite the
candidate rank with the current position minus one; `i` is the position of the head of
the remaining list and `rank` the candidate (initially the item count). -/
def cbScanAux (text : String) : List String → Nat → Int → Int
  | [], _, rank => rank
  | v :: t, i, rank => cbScanAux text t (i + 1) (if v < text then (i : Int) - 1 else rank)

/-- The alphabetical rank of `ComboBox::getIndexFromInsertPolicy` under
`InsertAlphabetically`: run the scan starting from `getItemsCount()`, then clamp the
result to be non-negative. -/
def getIndexAlphabetically (items : List String) (text : String) : Int :=
  max (cbScanAux text items 0 (items.length : Int)) 0

/-- Index of the last item whose text is less than `text`, if any; the reference
notion the specification compares the scan against. -/
def lastIdxLt : List String → String → Option Nat
  | [], _ => none
  | v :: t, x =>
    match lastIdxLt t x with
    | some i => some (i + 1)
    | none => if v < x then some 0 else none

/-- The reference ranking stated by the claim: the last index whose text is less than
the input, clamped to 0 when no item's text is less than the input. -/
def lastLessRank (items : List String) (text : String) : Int :=
  match lastIdxLt items text with
  | none => 0
  | some i => (i : Int)

/-- The scan's accumulator semantics: starting at offset `i` with candidate `rank`,
the result is `rank` when no item is less than the text, and `i + j - 1` when `j` is
the last offset (within the remaining list) whose item is less than the text. -/
theorem cbScanAux_eq_lastIdxLt (text : String) (l : List String) (i : Nat) (rank : Int) :
    cbScanAux text l i rank =
      (match lastIdxLt l text with
       | none => rank
       | some j => (i : Int) + (j : Int) - 1) := by
  induction l generalizing i rank with
  | nil => rfl
  | cons v t ih =>
    simp only [cbScanAux, lastIdxLt]
    rw [ih]
    cases htl : lastIdxLt t text with
    | some j =>
      simp only [htl]
      push_cast
      ring
    | none =>
      simp only [htl]
      by_cases hv : v < text
      · simp only [if_pos hv]
        norm_num
      · simp only [if_neg hv]

/-- C8 counterexample: with the single item `"a"` and input text `"a"`, no item's
text is less than the input, so the reference rank is 0; the source's scan leaves its
candidate at the item count and returns 1. -/
theorem c8_scan_differs_from_reference :
    getIndexAlphabetically ["a"] "a" = 1 ∧
    lastLessRank ["a"] "a" = 0 ∧ (1 : Int) ≠ 0 := by
  have hlt : ¬ ("a" : String) < "a" := lt_irrefl "a"
  have hnone : lastIdxLt ["a"] "a" = none := by
    simp [lastIdxLt, hlt]
  refine ⟨?_, ?_, by decide⟩
  · unfold getIndexAlphabetically
    rw [cbScanAux_eq_lastIdxLt]
    simp [hnone]
  · simp [lastLessRank, hnone]

/-- C8 amended: the scan does not compute the reference rank; it returns the item
count when no item's text is less than the input, and otherwise `max (j - 1) 0` where
`j` is the last index whose text is less than the input (one less than the reference
rank, clamped at 0). -/
theorem c8_scan_rank_characterization (items : List String) (text : String) :
    getIndexAlphabetically items text =
      (match lastIdxLt items text with
       | none => (items.length : Int)
       | some j => max ((j : Int) - 1) 0) := by
  unfold getIndexAlphabetically
  rw [cbScanAux_eq_lastIdxLt]
  cases h : lastIdxLt items text with
  | none =>
    simp only [h]
    exact max_eq_left (Int.natCast_nonneg _)
  | some j =>
    simp only [h]
    norm_num

/-! ## Fair allocator (modelled from the spec) -/

/-- A slot of the fair allocator: a minimum size and a stretch weight (spec 4.1). -/
structure Slot where
  minimum : Nat
  stretch : Nat
deriving DecidableEq

/-- Assign `r` leftover units one at a time to the earliest slots in input order. -/
def addRemainder : List Nat → Nat → List Nat
  | [], _ => []
  | x :: t, 0 => x :: t
  | x :: t, r + 1 => (x + 1) :: addRemainder t r

/-- Modelled from the spec: `distribute` / `allocateFairly` (FairAllocator, spec 4.1),
which is not among the analysed sources; only its caller
`LinearLayout::computeDefaultItemBox` is. Space is measured in whole units. Each slot
first reserves its minimum; the remaining `total - sum of minimums` (zero when the
total is below the sum of minimums) is distributed proportionally to the stretch
weights, slots of stretch 0 receiving nothing; when every stretch weight is 0, or
there is exactly one slot, the remainder is split evenly instead; per-slot shares are
truncated, and the leftover from truncation is handed one unit at a time to the
earliest slots in input order. -/
def distribute (total : Nat) (slots : List Slot) : List Nat :=
  if (slots.map Slot.stretch).sum = 0 ∨ slots.length = 1 then
    addRemainder
      (slots.map (fun s =>
        s.minimum + (total - (slots.map Slot.minimum).sum) / slots.length))
      ((total - (slots.map Slot.minimum).sum) % slots.length)
  else
    addRemainder
      (List.zipWith (fun s e => s.minimum + e) slots
        (slots.map (fun s =>
          (total - (slots.map Slot.minimum).sum) * s.stretch
            / (slots.map Slot.stretch).sum)))
      ((total - (slots.map Slot.minimum).sum)
        - (slots.map (fun s =>
            (total - (slots.map Slot.minimum).sum) * s.stretch
              / (slots.map Slot.stretch).sum)).sum)

/-- `addRemainder` keeps the length. -/
theorem addRemainder_length (l : List Nat) (r : Nat) :
    (addRemainder l r).length = l.length := by
  induction l generalizing r with
  | nil => rfl
  | cons x t ih =>
    cases r with
    | zero => rfl
    | succ r => simp [addRemainder, ih]

/-- No leftover means no change. -/
theorem addRemainder_zero (l : List Nat) : addRemainder l 0 = l := by
  cases l <;> rfl

/-- When the leftover fits in the list, `addRemainder` adds exactly that much. -/
theorem addRemainder_sum (l : List Nat) (r : Nat) (h : r ≤ l.length) :
    (addRemainder l r).sum = l.sum + r := by
  induction l generalizing r with
  | nil =>
    simp only [List.length_nil, Nat.le_zero] at h
    subst h
    rfl
  | cons x t ih =>
    cases r with
    | zero => simp [addRemainder]
    | succ r =>
      simp only [addRemainder, List.sum_cons]
      rw [ih r (by simpa using h)]
      omega

/-- `addRemainder` never shrinks an entry. -/
theorem addRemainder_get_le (l : List Nat) (r i : Nat) (h1 : i < l.length)
    (h2 : i < (addRemainder l r).length) :
    l.get ⟨i, h1⟩ ≤ (addRemainder l r).get ⟨i, h2⟩ := by
  induction l generalizing r i with
  | nil => simp at h1
  | cons x t ih =>
    cases r with
    | zero => exact le_of_eq rfl
    | succ r =>
      cases i with
      | zero => exact Nat.le_succ x
      | succ i => exact ih r i (by simpa using h1) (by simpa [addRemainder_length] using h2)

/-- Reading a mapped list at an index. -/
theorem get_map_slot (g : Slot → Nat) :
    ∀ (slots : List Slot) (i : Nat) (h1 : i < slots.length)
      (h2 : i < (slots.map g).length),
      (slots.map g).get ⟨i, h2⟩ = g (slots.get ⟨i, h1⟩)
  | [], i, h1, _ => absurd h1 (by simp)
  | s :: t, 0, _, _ => rfl
  | s :: t, i + 1, h1, h2 => get_map_slot g t i (by simpa using h1) (by simpa using h2)

/-- Zipping the minimums with their own mapped extras is a single map. -/
theorem zipWith_add_map (f : Slot → Nat) :
    ∀ slots : List Slot,
      List.zipWith (fun s e => s.minimum + e) slots (slots.map f)
        = slots.map (fun s => s.minimum + f s)
  | [] => rfl
  | s :: t => by simp [zipWith_add_map f t]

/-- Summing a per-slot constant increment. -/
theorem sum_map_add_const (slots : List Slot) (base : Nat) :
    (slots.map (fun s => s.minimum + base)).sum
      = (slots.map Slot.minimum).sum + slots.length * base := by
  induction slots with
  | nil => simp
  | cons s t ih =>
    simp only [List.map_cons, List.sum_cons, List.length_cons, ih]
    ring

/-- Summing per-slot increments splits into the two sums. -/
theorem sum_map_add (slots : List Slot) (f : Slot → Nat) :
    (slots.map (fun s => s.minimum + f s)).sum
      = (slots.map Slot.minimum).sum + (slots.map f).sum := by
  induction slots with
  | nil => rfl
  | cons s t ih =>
    simp only [List.map_cons, List.sum_cons, ih]
    ring

/-- Truncated shares never exceed the exact share of the whole. -/
theorem sum_map_div_le (rem S : Nat) (l : List Nat) :
    (l.map (fun v => rem * v / S)).sum ≤ rem * l.sum / S := by
  induction l with
  | nil => simp
  | cons a t ih =>
    simp only [List.map_cons, List.sum_cons, Nat.mul_add]
    have h := Nat.add_div_le_add_div (rem * a) (rem * t.sum) S
    omega

/-- Division by a positive divisor loses at most one unit per summand. -/
theorem div_add_le_succ (a b c : Nat) (hc : 0 < c) :
    (a + b) / c ≤ a / c + b / c + 1 := by
  rw [Nat.add_div hc]
  split <;> omega

/-- The exact share of the whole exceeds the truncated shares by at most the number
of slots. -/
theorem le_sum_map_div_add_length (rem S : Nat) (hS : 0 < S) (l : List Nat) :
    rem * l.sum / S ≤ (l.map (fun v => rem * v / S)).sum + l.length := by
  induction l with
  | nil => simp
  | cons a t ih =>
    simp only [List.map_cons, List.sum_cons, List.length_cons, Nat.mul_add]
    have h := div_add_le_succ (rem * a) (rem * t.sum) S hS
    omega

/-- C4 counterexample: with no slots and total 1 the sum of minimums is 0, so the
claim requires the sizes to sum to 1, yet the allocator returns the empty size list,
which sums to 0. -/
theorem c4_empty_slots_total_not_preserved :
    (List.map Slot.minimum []).sum ≤ 1 ∧ (distribute 1 []).sum ≠ 1 := by
  decide

/-- C4 amended: for every nonempty slot list, the fair allocator returns one size per
slot, each size at least its slot's minimum; when the total is at least the sum of
minimums the sizes sum to exactly the total; when the total is below the sum of
minimums every slot receives exactly its minimum (so the sizes sum to the sum of
minimums). -/
theorem c4_fair_allocation (total : Nat) (slots : List Slot) (hne : slots ≠ []) :
    (distribute total slots).length = slots.length ∧
    (∀ (i : Nat) (h1 : i < slots.length) (h2 : i < (distribute total slots).length),
      (slots.get ⟨i, h1⟩).minimum ≤ (distribute total slots).get ⟨i, h2⟩) ∧
    ((slots.map Slot.minimum).sum ≤ total → (distribute total slots).sum = total) ∧
    (total < (slots.map Slot.minimum).sum →
      distribute total slots = slots.map Slot.minimum) := by
  have hn : 0 < slots.length := List.length_pos.mpr hne
  unfold distribute
  by_cases hcond : (slots.map Slot.stretch).sum = 0 ∨ slots.length = 1
  · rw [if_pos hcond]
    refine ⟨?_, ?_, ?_, ?_⟩
    · rw [addRemainder_length, List.length_map]
    · intro i h1 h2
      have h2m : i < (slots.map (fun s =>
          s.minimum + (total - (slots.map Slot.minimum).sum) / slots.length)).length := by
        rw [List.length_map]
        exact h1
      refine le_trans ?_ (addRemainder_get_le _ _ i h2m h2)
      rw [get_map_slot _ slots i h1 h2m]
      exact Nat.le_add_right _ _
    · intro hle
      have hb : (total - (slots.map Slot.minimum).sum) % slots.length
          ≤ (slots.map (fun s =>
              s.minimum + (total - (slots.map Slot.minimum).sum) / slots.length)).length := by
        rw [List.length_map]
        exact le_of_lt (Nat.mod_lt _ hn)
      rw [addRemainder_sum _ _ hb, sum_map_add_const]
      have hdm := Nat.div_add_mod (total - (slots.map Slot.minimum).sum) slots.length
      rw [Nat.add_assoc, hdm]
      omega
    · intro hlt
      have hz : total - (slots.map Slot.minimum).sum = 0 := by omega
      simp only [hz, Nat.zero_div, Nat.add_zero, Nat.zero_mod]
      rw [addRemainder_zero]
  · rw [if_neg hcond]
    push_neg at hcond
    have hSpos : 0 < (slots.map Slot.stretch).sum := Nat.pos_of_ne_zero hcond.1
    rw [zipWith_add_map]
    have hmm : slots.map (fun s =>
        (total - (slots.map Slot.minimum).sum) * s.stretch / (slots.map Slot.stretch).sum)
        = (slots.map Slot.stretch).map (fun v =>
            (total - (slots.map Slot.minimum).sum) * v / (slots.map Slot.stretch).sum) := by
      rw [List.map_map]
      rfl
    have hEle : (slots.map (fun s =>
        (total - (slots.map Slot.minimum).sum) * s.stretch
          / (slots.map Slot.stretch).sum)).sum
        ≤ total - (slots.map Slot.minimum).sum := by
      rw [hmm]
      refine le_trans (sum_map_div_le _ _ _) ?_
      rw [Nat.mul_div_cancel _ hSpos]
    have hEge : total - (slots.map Slot.minimum).sum
        ≤ (slots.map (fun s =>
            (total - (slots.map Slot.minimum).sum) * s.stretch
              / (slots.map Slot.stretch).sum)).sum + slots.length := by
      have h := le_sum_map_div_add_length (total - (slots.map Slot.minimum).sum)
        ((slots.map Slot.stretch).sum) hSpos (slots.map Slot.stretch)
      rw [Nat.mul_div_cancel _ hSpos, List.length_map, ← hmm] at h
      exact h
    refine ⟨?_, ?_, ?_, ?_⟩
    · rw [addRemainder_length, List.length_map]
    · intro i h1 h2
      have h2m : i < (slots.map (fun s => s.minimum +
          (total - (slots.map Slot.minimum).sum) * s.stretch
            / (slots.map Slot.stretch).sum)).length := by
        rw [List.length_map]
        exact h1
      refine le_trans ?_ (addRemainder_get_le _ _ i h2m h2)
      rw [get_map_slot _ slots i h1 h2m]
      exact Nat.le_add_right _ _
    · intro hle
      have hb : (total - (slots.map Slot.minimum).sum)
            - (slots.map (fun s =>
                (total - (slots.map Slot.minimum).sum) * s.stretch
                  / (slots.map Slot.stretch).sum)).sum
          ≤ (slots.map (fun s => s.minimum +
              (total - (slots.map Slot.minimum).sum) * s.stretch
                / (slots.map Slot.stretch).sum)).length := by
        rw [List.length_map]
        omega
      rw [addRemainder_sum _ _ hb, sum_map_add]
      omega
    · intro hlt
      have hz : total - (slots.map Slot.minimum).sum = 0 := by omega
      simp only [hz, Nat.zero_mul, Nat.zero_div, Nat.add_zero, Nat.zero_sub]
      rw [addRemainder_zero]

/-- Witness for C4 at total 10 and slots with minimums 2 and 0 and stretches 1 and 2:
the sizes sum to 10 and each is at least its minimum. -/
theorem c4_fair_allocation_witness :
    (distribute 10 [⟨2, 1⟩, ⟨0, 2⟩]).length = 2 ∧
    (List.map Slot.minimum [⟨2, 1⟩, ⟨0, 2⟩]).sum ≤ 10 ∧
    (distribute 10 [⟨2, 1⟩, ⟨0, 2⟩]).sum = 10 := by
  have h := c4_fair_allocation 10 [⟨2, 1⟩, ⟨0, 2⟩] (by simp)
  exact ⟨h.1, by decide, h.2.2.1 (by decide)⟩
